import Mathlib

/-!
Verification of the availability-detection core of the `nc-dmv-appointments`
repository against its natural-language specification.

The repository drives the NC DMV appointment site with Playwright.  The core
being verified is the page-object class `AppointmentPage`
(`src/unnamed/part_001`, the current version; an older variant lives at
`src/pages/AppointmentPage.js`) together with the aggregation helper
`TestHelpers.formatResults` (`src/utils/test-helpers.js`).

The JavaScript is shallowly embedded: pure string analysis becomes Lean
functions over `String`/`List Char`, the implicit instance state
(`lastApiResponse` / `appointmentApiData`) becomes an explicit state record,
browser-driver observations (element visibility, page closed-ness, whether a
network response was captured) become explicit environment records, and
JavaScript exceptions become `Except`.

`JSON.parse` is modelled by an executable recursive-descent parser over the
JSON grammar (fuel-indexed to make termination evident); JavaScript numbers
are kept as their source lexeme since the embedded code only ever consumes
their truthiness.  The case-insensitive error regular expression of
`parseAppointmentData` is modelled by an executable backtracking matcher whose
structure follows the regex literally.
-/

namespace DMV

/-! ## JavaScript string primitives -/

/-- The ECMAScript `StrWhiteSpace` set (`WhiteSpace` plus line
terminators), stripped by both `String.prototype.trim` and `parseInt`:
TAB..CR, space, NBSP, Ogham space mark, U+2000..U+200A, LS, PS, NNBSP,
MMSP, ideographic space, and the BOM. -/
def isJsWs (c : Char) : Bool :=
  (9 ≤ c.toNat && c.toNat ≤ 13) || c.toNat = 32 || c.toNat = 0xa0 ||
  c.toNat = 0x1680 || (0x2000 ≤ c.toNat && c.toNat ≤ 0x200a) ||
  c.toNat = 0x2028 || c.toNat = 0x2029 || c.toNat = 0x202f ||
  c.toNat = 0x205f || c.toNat = 0x3000 || c.toNat = 0xfeff

/-- JavaScript `s.trim()` (drop leading and trailing whitespace). -/
def jsTrim (s : String) : String :=
  String.mk (((s.data.dropWhile isJsWs).reverse.dropWhile isJsWs).reverse)

/-- Does `pat` occur at the head of `l`? (exact character match) -/
def headMatch : List Char → List Char → Bool
  | [], _ => true
  | _ :: _, [] => false
  | p :: ps, c :: cs => p = c && headMatch ps cs

/-- JavaScript `l.includes(pat)` over character lists: `pat` occurs somewhere in `l`. -/
def listIncl (pat : List Char) : List Char → Bool
  | [] => headMatch pat []
  | c :: cs => headMatch pat (c :: cs) || listIncl pat cs

/-- JavaScript `s.includes(pat)` (substring containment). -/
def strIncl (s pat : String) : Bool := listIncl pat.data s.data

/-- JavaScript `s.startsWith(pat)`. -/
def strStarts (s pat : String) : Bool := headMatch pat.data s.data

/-- JavaScript `s.split(sep)` for a single-character separator: the list of
(possibly empty) chunks between occurrences of `sep`.  Always non-empty. -/
def splitCh (sep : Char) : List Char → List (List Char)
  | [] => [[]]
  | c :: t =>
    match splitCh sep t with
    | [] => [[]]
    | h :: r => if c = sep then [] :: h :: r else (c :: h) :: r

/-! ## JavaScript values and `JSON.parse`

`parseAppointmentData` first tries `JSON.parse` when the trimmed body starts
with a brace or bracket.  We embed the JSON grammar exactly: this decides
which bodies take the structured-payload path and which fall through to the
HTML-fragment analysis. -/

/-- A parsed JSON value.  Numbers keep their source lexeme: the embedded code
only ever consumes the truthiness of a JSON value, never numeric magnitude. -/
inductive JSValue where
  | null : JSValue
  | bool (b : Bool) : JSValue
  | num (lexeme : String) : JSValue
  | str (s : String) : JSValue
  | arr (elems : List JSValue) : JSValue
  | obj (members : List (String × JSValue)) : JSValue

/-- JavaScript `v === true`. -/
def JSValue.isTrueJs : JSValue → Bool
  | .bool true => true
  | _ => false

/-- JavaScript `v === false`. -/
def JSValue.isFalseJs : JSValue → Bool
  | .bool false => true
  | _ => false

/-- Is a JSON number lexeme the number zero? (`-0.00e7`-style lexemes are
zero exactly when every digit of the integer and fraction parts is `0`.) -/
def numLexIsZero (lexeme : String) : Bool :=
  ((lexeme.data.takeWhile (fun c => c ≠ 'e' && c ≠ 'E')).filter
    (fun c => c ≠ '-' && c ≠ '.')).all (fun c => c = '0')

/-- JavaScript truthiness of a parsed JSON value. -/
def jsTruthy : JSValue → Bool
  | .null => false
  | .bool b => b
  | .num lexeme => !(numLexIsZero lexeme)
  | .str s => !(s = "")
  | .arr _ => true
  | .obj _ => true

/-- JavaScript `json.key` on a parsed JSON value: a property lookup,
`undefined` (here `none`) on non-objects and absent keys; a duplicated key
keeps the last binding, as `JSON.parse` does. -/
def jsGet : JSValue → String → Option JSValue
  | .obj members, key => members.foldl (fun acc kv => if kv.1 = key then some kv.2 else acc) none
  | _, _ => none

/-- JavaScript `x || d` applied to a possibly-`undefined` property value. -/
def jsOr (x : Option JSValue) (d : JSValue) : JSValue :=
  match x with
  | some v => if jsTruthy v then v else d
  | none => d

/-- JSON whitespace (strictly smaller than JavaScript-trim whitespace). -/
def isJsonWs (c : Char) : Bool :=
  c = ' ' || c = '\t' || c = '\n' || c = '\r'

/-- Skip JSON whitespace. -/
def skipWs (l : List Char) : List Char := l.dropWhile isJsonWs

/-- Hexadecimal digit value, for `\uXXXX` escapes. -/
def hexVal (c : Char) : Option Nat :=
  if '0' ≤ c ∧ c ≤ '9' then some (c.toNat - '0'.toNat)
  else if 'a' ≤ c ∧ c ≤ 'f' then some (c.toNat - 'a'.toNat + 10)
  else if 'A' ≤ c ∧ c ≤ 'F' then some (c.toNat - 'A'.toNat + 10)
  else none

/-- Single-character string escapes of JSON. -/
def escChar (c : Char) : Option Char :=
  if c = '"' then some '"'
  else if c = '\\' then some '\\'
  else if c = '/' then some '/'
  else if c = 'b' then some '\x08'
  else if c = 'f' then some '\x0c'
  else if c = 'n' then some '\n'
  else if c = 'r' then some '\r'
  else if c = 't' then some '\t'
  else none

/-- Parse the body of a JSON string literal, the opening quote already
consumed.  Returns the decoded characters and the input after the closing
quote.  Rejects raw control characters, as `JSON.parse` does. -/
def parseStrBody : Nat → List Char → Option (List Char × List Char)
  | 0, _ => none
  | _ + 1, [] => none
  | fuel + 1, c :: rest =>
    if c = '"' then some ([], rest)
    else if c = '\\' then
      match rest with
      | [] => none
      | e :: rest2 =>
        if e = 'u' then
          match rest2 with
          | h1 :: h2 :: h3 :: h4 :: rest3 =>
            match hexVal h1, hexVal h2, hexVal h3, hexVal h4 with
            | some a, some b, some c3, some d =>
              (parseStrBody fuel rest3).map
                (fun p => (Char.ofNat (((a * 16 + b) * 16 + c3) * 16 + d) :: p.1, p.2))
            | _, _, _, _ => none
          | _ => none
        else
          match escChar e with
          | some d => (parseStrBody fuel rest2).map (fun p => (d :: p.1, p.2))
          | none => none
    else if c.toNat < 32 then none
    else (parseStrBody fuel rest).map (fun p => (c :: p.1, p.2))

/-- Is `c` an ASCII decimal digit? (JavaScript `\d`.) -/
def isDigitC (c : Char) : Bool := '0' ≤ c && c ≤ '9'

/-- Parse the optional fraction part of a JSON number (`.` followed by at
least one digit); a bare `.` is rejected. -/
def parseFracPart (s : List Char) : Option (List Char × List Char) :=
  match s with
  | '.' :: r =>
    if r.takeWhile isDigitC = [] then none
    else some ('.' :: r.takeWhile isDigitC, r.dropWhile isDigitC)
  | _ => some ([], s)

/-- Parse the optional exponent part of a JSON number (`e`/`E`, optional
sign, at least one digit). -/
def parseExp (s : List Char) : Option (List Char × List Char) :=
  match s with
  | e :: r =>
    if e = 'e' ∨ e = 'E' then
      match r with
      | '+' :: r2 =>
        if r2.takeWhile isDigitC = [] then none
        else some (e :: '+' :: r2.takeWhile isDigitC, r2.dropWhile isDigitC)
      | '-' :: r2 =>
        if r2.takeWhile isDigitC = [] then none
        else some (e :: '-' :: r2.takeWhile isDigitC, r2.dropWhile isDigitC)
      | _ =>
        if r.takeWhile isDigitC = [] then none
        else some (e :: r.takeWhile isDigitC, r.dropWhile isDigitC)
    else some ([], s)
  | [] => some ([], s)

/-- Parse the fraction-and-exponent tail of a JSON number after `pre`,
returning the full lexeme and the rest. -/
def parseNumTail (pre : List Char) (s : List Char) : Option (List Char × List Char) :=
  match parseFracPart s with
  | none => none
  | some (frac, s1) =>
    match parseExp s1 with
    | none => none
    | some (ex, s2) => some (pre ++ frac ++ ex, s2)

/-- Parse a JSON number lexeme (sign, integer part without leading zeros,
optional fraction and exponent). -/
def parseNum (s : List Char) : Option (List Char × List Char) :=
  match s with
  | '-' :: s1 =>
    match s1 with
    | [] => none
    | c :: r =>
      if c = '0' then parseNumTail ['-', '0'] r
      else if isDigitC c then
        parseNumTail ('-' :: c :: r.takeWhile isDigitC) (r.dropWhile isDigitC)
      else none
  | s1 =>
    match s1 with
    | [] => none
    | c :: r =>
      if c = '0' then parseNumTail ['0'] r
      else if isDigitC c then
        parseNumTail (c :: r.takeWhile isDigitC) (r.dropWhile isDigitC)
      else none

mutual

/-- Parse one JSON value at the head of `s` (whitespace already skipped). -/
def parseVal : Nat → List Char → Option (JSValue × List Char)
  | 0, _ => none
  | _ + 1, [] => none
  | fuel + 1, c :: r =>
    if c = '"' then
      (parseStrBody (fuel + 1) r).map (fun p => (.str (String.mk p.1), p.2))
    else if c = 't' then
      match r with
      | 'r' :: 'u' :: 'e' :: r2 => some (.bool true, r2)
      | _ => none
    else if c = 'f' then
      match r with
      | 'a' :: 'l' :: 's' :: 'e' :: r2 => some (.bool false, r2)
      | _ => none
    else if c = 'n' then
      match r with
      | 'u' :: 'l' :: 'l' :: r2 => some (.null, r2)
      | _ => none
    else if c = '[' then
      match skipWs r with
      | ']' :: r2 => some (.arr [], r2)
      | s1 => (parseItems fuel s1).map (fun p => (.arr p.1, p.2))
    else if c = '\x7b' then
      match skipWs r with
      | '\x7d' :: r2 => some (.obj [], r2)
      | s1 => (parseMembers fuel s1).map (fun p => (.obj p.1, p.2))
    else
      (parseNum (c :: r)).map (fun p => (.num (String.mk p.1), p.2))

/-- Parse the non-empty item list of a JSON array, up to and including the
closing bracket. -/
def parseItems : Nat → List Char → Option (List JSValue × List Char)
  | 0, _ => none
  | fuel + 1, s =>
    match parseVal fuel s with
    | none => none
    | some (v, r1) =>
      match skipWs r1 with
      | ',' :: r2 => (parseItems fuel (skipWs r2)).map (fun p => (v :: p.1, p.2))
      | ']' :: r2 => some ([v], r2)
      | _ => none

/-- Parse the non-empty member list of a JSON object, up to and including the
closing brace. -/
def parseMembers : Nat → List Char → Option (List (String × JSValue) × List Char)
  | 0, _ => none
  | fuel + 1, s =>
    match s with
    | '"' :: r =>
      match parseStrBody (fuel + 1) r with
      | none => none
      | some (key, r1) =>
        match skipWs r1 with
        | ':' :: r2 =>
          match parseVal fuel (skipWs r2) with
          | none => none
          | some (v, r3) =>
            match skipWs r3 with
            | ',' :: r4 =>
              (parseMembers fuel (skipWs r4)).map
                (fun p => ((String.mk key, v) :: p.1, p.2))
            | '\x7d' :: r4 => some ([(String.mk key, v)], r4)
            | _ => none
        | _ => none
    | _ => none

end

/-- JavaScript `JSON.parse(s)`: optional surrounding whitespace around a
single JSON value; `none` models a thrown `SyntaxError`. -/
def jsonParse (s : String) : Option JSValue :=
  match parseVal (2 * s.data.length + 4) (skipWs s.data) with
  | some (v, rest) => if skipWs rest = [] then some v else none
  | none => none

/-! ## The Response Classifier: `parseAppointmentData`

From `src/unnamed/part_001`, lines 59–115. -/

/-- The classifier's result record (the spec's `AppointmentSignal`).
`hasAppointments` and `availableDates` hold JavaScript values: the JSON path
copies arbitrary decoded values into them (`json.hasAppointments || false`),
while the fragment path stores a boolean and an array of strings. -/
structure ApptData where
  hasAppointments : JSValue
  availableDates : JSValue
  errorMessage : Option String

/-- The definitive positive marker
(`responseBody.includes('OABSEngine.Models.CalendarDateModel')`). -/
def calendarModelMarker : String := "OABSEngine.Models.CalendarDateModel"

/-- One attempt of `/(\d{4}-\d{2}-\d{2})/` at the head of `l`: exactly four
digits, a dash, two digits, a dash, two digits. -/
def dateAt (l : List Char) : Option String :=
  match l with
  | a :: b :: c :: d :: e :: f :: g :: h :: i :: j :: _ =>
    if isDigitC a && isDigitC b && isDigitC c && isDigitC d && e = '-' &&
       isDigitC f && isDigitC g && h = '-' && isDigitC i && isDigitC j then
      some (String.mk [a, b, c, d, e, f, g, h, i, j])
    else none
  | _ => none

/-- The scan underlying `matchAll`, structurally recursive on a fuel bound:
at each position try the date pattern; a match is emitted and its ten
characters consumed, otherwise advance one character. -/
def scanDatesF : Nat → List Char → List String
  | 0, _ => []
  | _ + 1, [] => []
  | fuel + 1, c :: t =>
    match dateAt (c :: t) with
    | some m => m :: scanDatesF fuel (t.drop 9)
    | none => scanDatesF fuel t

/-- The spread `[...responseBody.matchAll(/(\d{4}-\d{2}-\d{2})/g)]`: the leftmost
non-overlapping matches, scanning left to right, a successful match consuming
its ten characters.  A fuel of the list's length suffices since every step
consumes at least one character. -/
def scanDates (l : List Char) : List String := scanDatesF l.length l

/-- The date-collection loop: push each match not already present
(`if (!data.availableDates.includes(match[1])) push`), i.e. de-duplicate
keeping the first occurrence. -/
def dedupFirstAux (acc : List String) : List String → List String
  | [] => acc
  | m :: t => if acc.contains m then dedupFirstAux acc t else dedupFirstAux (acc ++ [m]) t

/-- De-duplicated date list in first-seen order. -/
def dedupFirst (l : List String) : List String := dedupFirstAux [] l

/-! ### The negative-marker regular expression

`/<span[^>]*class="[^"]*field-validation-error[^"]*"[^>]*>[^<]*This office
does not currently have any appointments available[^<]*<\/span>/i`, embedded
as an executable backtracking matcher: literals match case-insensitively
(the `i` flag), each `[^x]*` tries every split point. -/

/-- Match a literal case-insensitively at the head of `s`
(regex `i` flag), returning the rest. -/
def litAt : List Char → List Char → Option (List Char)
  | [], s => some s
  | _ :: _, [] => none
  | p :: ps, c :: cs => if p.toLower = c.toLower then litAt ps cs else none

/-- Match `[^bad]*` followed by whatever the continuation `k` accepts:
try the empty repetition first, then extend one non-`bad` character at a
time (backtracking existence). -/
def starThen (bad : Char) (k : List Char → Bool) : List Char → Bool
  | [] => k []
  | c :: t => k (c :: t) || (decide (c ≠ bad) && starThen bad k t)

/-- The error phrase the regex looks for inside the span. -/
def noApptPhrase : String :=
  "This office does not currently have any appointments available"

/-- Match a literal (case-insensitively) and hand the rest to the
continuation. -/
def litThen (lit : List Char) (k : List Char → Bool) (s : List Char) : Bool :=
  match litAt lit s with
  | some r => k r
  | none => false

/-- Match the whole error-span regex at the head of `s`, literal by literal:
`<span` `[^>]*` `class="` `[^"]*` `field-validation-error` `[^"]*` `"`
`[^>]*` `>` `[^<]*` *phrase* `[^<]*` `</span>`. -/
def errSpanAt : List Char → Bool :=
  litThen "<span".data
    (starThen '>' (litThen "class=\"".data
      (starThen '"' (litThen "field-validation-error".data
        (starThen '"' (litThen "\"".data
          (starThen '>' (litThen ">".data
            (starThen '<' (litThen noApptPhrase.data
              (starThen '<' (litThen "</span>".data (fun _ => true)))))))))))))

/-- Try the error-span regex at every start position of the list. -/
def scanSpan : List Char → Bool
  | [] => false
  | c :: t => errSpanAt (c :: t) || scanSpan t

/-- The test `errorPattern.test(responseBody)`: does the error-span regex match at some
position of the body? -/
def hasVisibleError (body : String) : Bool := scanSpan body.data

/-- The HTML-fragment analysis of `parseAppointmentData` (lines 80–114),
reached when the structured-payload path is not taken: the definitive
positive marker short-circuits, then the visible-error regex, then the
inconclusive default. -/
def parseFragments (responseBody : String) : ApptData :=
  if strIncl responseBody calendarModelMarker then
    { hasAppointments := .bool true
      availableDates := .arr ((dedupFirst (scanDates responseBody.data)).map .str)
      errorMessage := none }
  else if hasVisibleError responseBody then
    { hasAppointments := .bool false
      availableDates := .arr []
      errorMessage := some "No appointments available" }
  else
    { hasAppointments := .bool false, availableDates := .arr [], errorMessage := none }

/-- The classifier `parseAppointmentData(responseBody)` (`src/unnamed/part_001`, 59–115):
if the trimmed body opens a JSON object or array and decodes, read
`hasAppointments` / `availableDates` off the decoded value and return;
on decode failure fall through to the fragment analysis.  Total: every
JavaScript exception on this path is caught by the function itself. -/
def parseAppointmentData (responseBody : String) : ApptData :=
  if strStarts (jsTrim responseBody) "\x7b" || strStarts (jsTrim responseBody) "[" then
    match jsonParse responseBody with
    | some json =>
      { hasAppointments := jsOr (jsGet json "hasAppointments") (.bool false)
        availableDates := jsOr (jsGet json "availableDates") (.arr [])
        errorMessage := none }
    | none => parseFragments responseBody
  else parseFragments responseBody

/-! ## The Location State Machine: `hasAppointmentsAvailable` and
`clickActiveUnit`

From `src/unnamed/part_001`, lines 217–333.  The browser driver's
observations become an explicit record: whether `page.isClosed()` holds, and
what each DOM probe of the fallback heuristic reports.  Every awaited DOM
probe in `hasAppointmentsAvailable` carries a `.catch` handler in the source,
so the method never throws and is embedded as a `Bool`-valued function. -/

/-- The driver observations consumed by `hasAppointmentsAvailable`. -/
structure DomState where
  /-- Whether `this.page.isClosed()`. -/
  closed : Bool
  /-- Whether `this.appointmentHeading.isVisible()` — the
  `Please select date and time` heading. -/
  headingVisible : Bool
  /-- visibility of the `span.field-validation-error` filtered by the
  no-appointments phrase. -/
  errorSpanVisible : Bool
  /-- The count `this.errorHiddenInput.count()` — the `ErrorNoAvaiableDates`
  hidden input. -/
  errorInputCount : Nat

/-- JavaScript truthiness of `this.appointmentApiData.errorMessage`. -/
def errMsgTruthy : Option String → Bool
  | some s => !(s = "")
  | none => false

/-- The DOM fallback of `hasAppointmentsAvailable` (lines 300–332): positive
heading, then visible error span, then hidden error input, else the
optimistic default `true`.  Re-checks `isClosed` first (line 304). -/
def domFallback (ps : DomState) : Bool :=
  if ps.closed then false
  else if ps.headingVisible then true
  else if ps.errorSpanVisible then false
  else if ps.errorInputCount > 0 then false
  else true

/-- The check `hasAppointmentsAvailable()` (lines 272–333): on a closed page it warns
and returns `false`; with captured API data it answers from the parsed
signal (`=== true`, then truthy `errorMessage`, then `=== false`); otherwise
it falls back to the DOM heuristic. -/
def hasAppointmentsAvailable (ps : DomState) (apptData : Option ApptData) : Bool :=
  if ps.closed then false
  else
    match apptData with
    | some d =>
      if d.hasAppointments.isTrueJs then true
      else if errMsgTruthy d.errorMessage then false
      else if d.hasAppointments.isFalseJs then false
      else domFallback ps
    | none => domFallback ps

/-- The captured network response stored in `this.lastApiResponse`
(`setupApiInterception`, lines 34–40). -/
structure CapturedResponse where
  url : String
  status : Nat
  body : String
  headers : List (String × String)
  timestamp : String

/-- The page object's mutable API-capture slots (`this.lastApiResponse`,
`this.appointmentApiData`). -/
structure ApiSlots where
  lastApiResponse : Option CapturedResponse
  appointmentApiData : Option ApptData

/-- What the driver does during one `clickActiveUnit` call. -/
structure ClickEnv where
  /-- the response stored by the route interception during this click,
  if any matching response with an HTML/JSON content type arrived. -/
  captured : Option CapturedResponse
  /-- Whether `this.page.isClosed()` at the post-click check (line 235). -/
  closedAfterClick : Bool
  /-- the `blockLoader` hidden-wait threw (line 241). -/
  loaderWaitFails : Bool
  /-- Whether `this.page.isClosed()` inside that wait's catch handler (line 244). -/
  closedDuringLoaderWait : Bool

/-- The action `clickActiveUnit(index)` (lines 217–266): clear both capture slots, click
(the interception callback repopulates the slots from the captured body),
then fail with a distinguishable error if the page closed, or rethrow a
loader-wait failure; network-idle failures only warn.  The first component is
the instance state (which persists even when the method throws), the second
the method's outcome. -/
def clickActiveUnit (_s : ApiSlots) (env : ClickEnv) : ApiSlots × Except String Unit :=
  let cleared : ApiSlots := { lastApiResponse := none, appointmentApiData := none }
  let afterCapture : ApiSlots :=
    match env.captured with
    | some resp =>
      { lastApiResponse := some resp
        appointmentApiData := some (parseAppointmentData resp.body) }
    | none => cleared
  let outcome : Except String Unit :=
    if env.closedAfterClick then .error "Page was closed unexpectedly after clicking unit"
    else if env.loaderWaitFails then
      if env.closedDuringLoaderWait then .error "Page was closed while waiting for loader to hide"
      else .error "loader wait failed"
    else .ok ()
  (afterCapture, outcome)

/-! ## The Availability Aggregator: `TestHelpers.formatResults`

From `src/utils/test-helpers.js`, lines 44–55. -/

/-- One location's outcome (`{ cityName, isAvailable }` from
`checkLocationAvailability`). -/
structure LocationResult where
  cityName : String
  isAvailable : Bool

/-- The run summary produced by `formatResults`. -/
structure RunSummary where
  total : Nat
  available : Nat
  unavailable : Nat
  availableLocations : List String
  unavailableLocations : List String

/-- The aggregator `TestHelpers.formatResults(results)`: partition by `isAvailable` and
report counts and city-name lists. -/
def formatResults (results : List LocationResult) : RunSummary :=
  let available := results.filter (fun r => r.isAvailable)
  let unavailable := results.filter (fun r => !r.isAvailable)
  { total := results.length
    available := available.length
    unavailable := unavailable.length
    availableLocations := available.map (fun r => r.cityName)
    unavailableLocations := unavailable.map (fun r => r.cityName) }

/-! ## Time-slot filters: `getMorningTimeSlots` / `getAfternoonTimeSlots`

From `src/unnamed/part_001`, lines 591–615.  Each calls `getTimeSlots()`
(a browser-side DOM extraction, modelled as the input list) and filters it.
The filter callback throws a `TypeError` when a non-empty `datetime` has no
second space-separated token (`slot.datetime.split(' ')[1]` is `undefined`),
so the filters are embedded in `Except`. -/

/-- One time slot as extracted by `getTimeSlots` (only `datetime` and the
display `value` are consumed by the filters). -/
structure TimeSlot where
  datetime : String
  value : String
deriving DecidableEq

/-- JavaScript `parseInt(s)` with no radix: strip string whitespace, take
an optional sign, then a `0x`/`0X` prefix commits to hexadecimal — the
prefix is consumed and `NaN` results when no hexadecimal digit follows —
otherwise the longest run of leading decimal digits; `none` is `NaN`. -/
def jsParseInt (s : String) : Option Int :=
  let l := s.data.dropWhile isJsWs
  let (sign, l1) : Int × List Char :=
    match l with
    | '-' :: r => (-1, r)
    | '+' :: r => (1, r)
    | _ => (1, l)
  match l1 with
  | '0' :: x :: r =>
    if x = 'x' ∨ x = 'X' then
      if (r.takeWhile (fun c => (hexVal c).isSome)) = [] then none
      else some (sign * ((r.takeWhile (fun c => (hexVal c).isSome)).foldl
        (fun acc c => acc * 16 + ((hexVal c).getD 0)) 0 : Nat))
    else some (sign * ((('0' :: x :: r).takeWhile isDigitC).foldl
        (fun acc c => acc * 10 + (c.toNat - '0'.toNat)) 0 : Nat))
  | _ =>
    if (l1.takeWhile isDigitC) = [] then none
    else some (sign * ((l1.takeWhile isDigitC).foldl
        (fun acc c => acc * 10 + (c.toNat - '0'.toNat)) 0 : Nat))

/-- The hour `parseInt(slot.datetime.split(' ')[1].split(':')[0])`: the hour read off
the second space-separated token of `datetime`; outer `none` models the
`TypeError` on a missing token, inner `none` models `NaN`. -/
def slotHour (datetime : String) : Option (Option Int) :=
  match (splitCh ' ' datetime.data).drop 1 with
  | [] => none
  | time :: _ =>
    match splitCh ':' time with
    | [] => some none
    | tok :: _ => some (jsParseInt (String.mk tok))

/-- The `getAfternoonTimeSlots` filter callback (lines 609–614): falsy
`datetime` is rejected, then `datetime.includes('PM') && hour < 5`
(`NaN < 5` is `false`). -/
def afternoonKeep (slot : TimeSlot) : Except Unit Bool :=
  if slot.datetime = "" then .ok false
  else
    match slotHour slot.datetime with
    | none => .error ()
    | some hour =>
      .ok (strIncl slot.datetime "PM" &&
        (match hour with | some h => decide (h < 5) | none => false))

/-- The `getMorningTimeSlots` filter callback (lines 594–599):
`datetime.includes('AM') && hour >= 8`. -/
def morningKeep (slot : TimeSlot) : Except Unit Bool :=
  if slot.datetime = "" then .ok false
  else
    match slotHour slot.datetime with
    | none => .error ()
    | some hour =>
      .ok (strIncl slot.datetime "AM" &&
        (match hour with | some h => decide (8 ≤ h) | none => false))

/-- JavaScript `Array.prototype.filter` with a callback that can throw: the first
exception aborts the whole call. -/
def filterE (f : TimeSlot → Except Unit Bool) : List TimeSlot → Except Unit (List TimeSlot)
  | [] => .ok []
  | s :: t =>
    match f s with
    | .error e => .error e
    | .ok keep =>
      match filterE f t with
      | .error e => .error e
      | .ok rest => .ok (if keep then s :: rest else rest)

/-- The filter `getAfternoonTimeSlots()` applied to the slots `getTimeSlots` returned. -/
def getAfternoonTimeSlots (slots : List TimeSlot) : Except Unit (List TimeSlot) :=
  filterE afternoonKeep slots

/-- The filter `getMorningTimeSlots()` applied to the slots `getTimeSlots` returned. -/
def getMorningTimeSlots (slots : List TimeSlot) : Except Unit (List TimeSlot) :=
  filterE morningKeep slots

/-! ## Predicates used to state the claims -/

/-- The afternoon-slot predicate as the specification words it: `datetime`
non-empty, containing `PM`, with the hour before the `:` of the second
space-separated token strictly below `5`. -/
def claimAfternoon (s : TimeSlot) : Bool :=
  !(s.datetime = "") && strIncl s.datetime "PM" &&
    (match slotHour s.datetime with
     | some (some h) => decide (h < 5)
     | _ => false)

/-- The morning-slot predicate as the specification words it: `datetime`
non-empty, containing `AM`, hour at least `8`. -/
def claimMorning (s : TimeSlot) : Bool :=
  !(s.datetime = "") && strIncl s.datetime "AM" &&
    (match slotHour s.datetime with
     | some (some h) => decide (8 ≤ h)
     | _ => false)

/-- Does a string match the strict `\d{4}-\d{2}-\d{2}` shape exactly
(ten characters)? -/
def isDatePat (s : String) : Bool :=
  match s.data with
  | [a, b, c, d, e, f, g, h, i, j] =>
    isDigitC a && isDigitC b && isDigitC c && isDigitC d && e = '-' &&
    isDigitC f && isDigitC g && h = '-' && isDigitC i && isDigitC j
  | _ => false

/-- Was the structured-payload (JSON) branch of `parseAppointmentData`
taken for this body? -/
def jsonPathTaken (body : String) : Prop :=
  (strStarts (jsTrim body) "\x7b" || strStarts (jsTrim body) "[") = true ∧
  (jsonParse body).isSome

instance (body : String) : Decidable (jsonPathTaken body) := by
  unfold jsonPathTaken; infer_instance

/-! ## A string-literal mode scanner

Used to prove that the structured-payload path and the visible-error regex
are mutually exclusive: a body accepted by `jsonParse` can carry the
characters `=` and `i` only inside JSON string literals, while a regex match
`class="` &#8230; `field-validation-error` forces an `i` outside any string
literal. -/

/-- Scanner mode: outside any string literal, inside one, or right after a
backslash inside one. -/
inductive SMode where
  | out : SMode
  | inStr : SMode
  | esc : SMode
deriving DecidableEq

/-- One scanner step. -/
def scanStep : SMode → Char → SMode
  | .out, c => if c = '"' then .inStr else .out
  | .inStr, c => if c = '\\' then .esc else if c = '"' then .out else .inStr
  | .esc, _ => .inStr

/-- Run the scanner over a character list. -/
def scanFold (m : SMode) (l : List Char) : SMode := l.foldl scanStep m

/-- The characters whose position matters for the exclusivity argument. -/
def badC (c : Char) : Bool := c = '=' || c = 'i'

/-- The characters that can appear in a JSON number lexeme. -/
def numChar (c : Char) : Bool :=
  isDigitC c || c = '-' || c = '+' || c = '.' || c = 'e' || c = 'E'

/-- A well-scanned chunk that starts and ends outside string literals:
scanning it from `out` lands on `out`, and every `=` or `i` in it sits at a
non-`out` scanner mode (inside a string literal). -/
def GoodOut (t : List Char) : Prop :=
  scanFold .out t = .out ∧
  ∀ a c b, t = a ++ c :: b → badC c = true → scanFold .out a ≠ SMode.out

/-- The body of a string literal (opening quote consumed): scanning it from
`inStr` ends on `out` (at its closing quote) and never visits `out` before
its last character. -/
def GoodIn (t : List Char) : Prop :=
  scanFold .inStr t = .out ∧
  ∀ a c b, t = a ++ c :: b → scanFold .inStr a ≠ SMode.out

/-! # Supporting lemmas -/

/-- Partition of a list's length by a Boolean filter. -/
theorem length_filter_partition {α : Type} (p : α → Bool) (l : List α) :
    (l.filter p).length + (l.filter (fun x => !p x)).length = l.length := by
  induction l with
  | nil => rfl
  | cons a t ih =>
    by_cases h : p a = true <;> simp [List.filter_cons, h, ← ih] <;> omega

/-- The embedding `filterE` agrees with plain filtering when the callback never throws. -/
theorem filterE_eq_filter (f : TimeSlot → Except Unit Bool) (p : TimeSlot → Bool)
    (l : List TimeSlot) (h : ∀ s ∈ l, f s = .ok (p s)) :
    filterE f l = .ok (l.filter p) := by
  induction l with
  | nil => rfl
  | cons s t ih =>
    have hs : f s = .ok (p s) := h s (by simp)
    have ht : filterE f t = .ok (t.filter p) := ih (fun x hx => h x (by simp [hx]))
    by_cases hp : p s = true <;> simp [filterE, hs, ht, List.filter_cons, hp]

/-- On a slot that survives the hypothesis of claim C10, the afternoon
callback returns exactly the claim-level predicate. -/
theorem afternoonKeep_eq_claim (s : TimeSlot)
    (h : s.datetime = "" ∨ (slotHour s.datetime).isSome) :
    afternoonKeep s = .ok (claimAfternoon s) := by
  rcases h with h | h
  · simp [afternoonKeep, claimAfternoon, h]
  · rcases Option.isSome_iff_exists.mp h with ⟨hour, hh⟩
    by_cases he : s.datetime = ""
    · simp [afternoonKeep, claimAfternoon, he]
    · cases hour <;> simp [afternoonKeep, claimAfternoon, he, hh]

/-- Same for the morning callback. -/
theorem morningKeep_eq_claim (s : TimeSlot)
    (h : s.datetime = "" ∨ (slotHour s.datetime).isSome) :
    morningKeep s = .ok (claimMorning s) := by
  rcases h with h | h
  · simp [morningKeep, claimMorning, h]
  · rcases Option.isSome_iff_exists.mp h with ⟨hour, hh⟩
    by_cases he : s.datetime = ""
    · simp [morningKeep, claimMorning, he]
    · cases hour <;> simp [morningKeep, claimMorning, he, hh]

/-- A successful date-pattern attempt yields a string of the strict shape
that sits at the head of the input. -/
theorem dateAt_sound (l : List Char) (m : String) (h : dateAt l = some m) :
    isDatePat m = true ∧ headMatch m.data l = true := by
  match l with
  | a :: b :: c :: d :: e :: f :: g :: h' :: i :: j :: rest =>
    unfold dateAt at h
    by_cases hd : (isDigitC a && isDigitC b && isDigitC c && isDigitC d && e = '-' &&
        isDigitC f && isDigitC g && h' = '-' && isDigitC i && isDigitC j) = true
    · simp only [hd, if_pos] at h
      cases h
      simp only [isDatePat, headMatch]
      simp_all
    · simp [hd] at h
  | [] => simp [dateAt] at h
  | [a] | [a,b] | [a,b,c] | [a,b,c,d] | [a,b,c,d,e] | [a,b,c,d,e,f]
  | [a,b,c,d,e,f,g] | [a,b,c,d,e,f,g,h'] | [a,b,c,d,e,f,g,h',i] =>
    simp [dateAt] at h

/-- A pattern found at the head occurs in the list. -/
theorem listIncl_of_headMatch (pat l : List Char) (h : headMatch pat l = true) :
    listIncl pat l = true := by
  cases l with
  | nil => simpa [listIncl] using h
  | cons c t => simp [listIncl, h]

/-- Occurrence is preserved by extending the list on the left. -/
theorem listIncl_cons (pat : List Char) (c : Char) (t : List Char)
    (h : listIncl pat t = true) : listIncl pat (c :: t) = true := by
  simp [listIncl, h]

/-- Occurrence in a suffix is occurrence in the list. -/
theorem listIncl_of_drop (pat l : List Char) (n : Nat)
    (h : listIncl pat (l.drop n) = true) : listIncl pat l = true := by
  induction l generalizing n with
  | nil => simpa using h
  | cons c t ih =>
    cases n with
    | zero => simpa using h
    | succ n' => exact listIncl_cons _ _ _ (ih n' (by simpa using h))

/-- Every match emitted by the date scan has the strict shape and occurs in
the scanned list. -/
theorem scanDatesF_sound (fuel : Nat) (l : List Char) :
    ∀ m ∈ scanDatesF fuel l, isDatePat m = true ∧ listIncl m.data l = true := by
  induction fuel generalizing l with
  | zero => simp [scanDatesF]
  | succ fuel ih =>
    cases l with
    | nil => simp [scanDatesF]
    | cons c t =>
      intro m hm
      unfold scanDatesF at hm
      cases hd : dateAt (c :: t) with
      | some d =>
        rw [hd] at hm
        rcases List.mem_cons.mp hm with h | h
        · subst h
          exact ⟨(dateAt_sound _ _ hd).1,
            listIncl_of_headMatch _ _ (dateAt_sound _ _ hd).2⟩
        · have := ih (t.drop 9) m h
          exact ⟨this.1, listIncl_cons _ _ _ (listIncl_of_drop _ _ 9 this.2)⟩
      | none =>
        rw [hd] at hm
        have := ih t m hm
        exact ⟨this.1, listIncl_cons _ _ _ this.2⟩

/-- The de-duplication loop appends a subsequence of its input to the
accumulator. -/
theorem dedupFirstAux_sublist (l acc : List String) :
    ∃ m, dedupFirstAux acc l = acc ++ m ∧ m.Sublist l := by
  induction l generalizing acc with
  | nil => exact ⟨[], by simp [dedupFirstAux]⟩
  | cons x t ih =>
    by_cases hx : x ∈ acc
    · rcases ih acc with ⟨m, hm, hs⟩
      exact ⟨m, by simp [dedupFirstAux, hx, hm], hs.cons x⟩
    · rcases ih (acc ++ [x]) with ⟨m, hm, hs⟩
      exact ⟨x :: m, by simp [dedupFirstAux, hx, hm], hs.cons₂ x⟩

/-- The de-duplication loop never pushes an element already present. -/
theorem dedupFirstAux_nodup (l acc : List String) (h : acc.Nodup) :
    (dedupFirstAux acc l).Nodup := by
  induction l generalizing acc with
  | nil => simpa [dedupFirstAux] using h
  | cons x t ih =>
    by_cases hx : x ∈ acc
    · simpa [dedupFirstAux, hx] using ih acc h
    · have : (acc ++ [x]).Nodup := by simp [List.nodup_append, h, hx]
      simpa [dedupFirstAux, hx] using ih (acc ++ [x]) this

/-! ### Completeness of the error-span matcher -/

/-- A literal matches itself (the `i` flag only widens what matches). -/
theorem litAt_self (lit r : List Char) : litAt lit (lit ++ r) = some r := by
  induction lit with
  | nil => rfl
  | cons c cs ih => simp [litAt, ih]

/-- The combinator `litThen` accepts its literal followed by anything the continuation
accepts. -/
theorem litThen_complete (lit : List Char) (k : List Char → Bool) (r : List Char)
    (hk : k r = true) : litThen lit k (lit ++ r) = true := by
  simp [litThen, litAt_self, hk]

/-- The combinator `starThen` accepts any run avoiding its excluded character followed by
anything the continuation accepts. -/
theorem starThen_complete (bad : Char) (k : List Char → Bool) (a r : List Char)
    (ha : ∀ c ∈ a, c ≠ bad) (hk : k r = true) : starThen bad k (a ++ r) = true := by
  induction a with
  | nil => cases r <;> simp [starThen, hk]
  | cons x t ih =>
    have hx : x ≠ bad := ha x (by simp)
    have ih' := ih (fun c hc => ha c (by simp [hc]))
    simp [starThen, hx, ih']

/-- A regex match somewhere inside the list is found by the position scan. -/
theorem scanSpan_complete (pre u : List Char) (h : errSpanAt u = true) :
    scanSpan (pre ++ u) = true := by
  induction pre with
  | nil =>
    cases u with
    | nil => simp [errSpanAt, litThen, litAt] at h
    | cons c t => simp [scanSpan, h]
  | cons x p ih => simp [scanSpan, ih]

/-! ### Scanner algebra -/

/-- Scanning distributes over concatenation. -/
theorem scanFold_append (m : SMode) (a b : List Char) :
    scanFold m (a ++ b) = scanFold (scanFold m a) b := by
  simp [scanFold, List.foldl_append]

/-- Outside string literals, the scanner stays outside over a quote-free
run. -/
theorem scanFold_out_no_quote (l : List Char) (h : '"' ∉ l) :
    scanFold .out l = .out := by
  induction l with
  | nil => rfl
  | cons c t ih =>
    have hc : c ≠ '"' := fun he => h (he ▸ List.mem_cons_self c t)
    have ht : '"' ∉ t := fun hm => h (List.mem_cons_of_mem c hm)
    simpa [scanFold, scanStep, hc] using ih ht

/-- Well-scanned chunks compose. -/
theorem GoodOut.append {t₁ t₂ : List Char} (h₁ : GoodOut t₁) (h₂ : GoodOut t₂) :
    GoodOut (t₁ ++ t₂) := by
  refine ⟨by rw [scanFold_append, h₁.1, h₂.1], ?_⟩
  intro a c b hab hc
  rcases List.append_eq_append_iff.mp hab with ⟨a', ha', hb'⟩ | ⟨c', hc', hd'⟩
  · subst ha'
    rw [scanFold_append, h₁.1]
    exact h₂.2 a' c b hb' hc
  · cases c' with
    | nil =>
      exact absurd (h₂.2 [] c b (by simpa using hd'.symm) hc) (by simp [scanFold])
    | cons x c'' =>
      have hx : x = c := by simpa using (congrArg (fun l => l.headD ' ') hd').symm
      subst hx
      exact h₁.2 a x c'' (by simpa using hc') hc

/-- A chunk of harmless characters (no quote, not `=`/`i`) is well-scanned. -/
theorem GoodOut.ofAll {t : List Char} (h : ∀ c ∈ t, c ≠ '"' ∧ badC c = false) :
    GoodOut t := by
  refine ⟨scanFold_out_no_quote t (fun hm => absurd rfl (h _ hm).1), ?_⟩
  intro a c b hab hc
  have : c ∈ t := by rw [hab]; exact List.mem_append_right a (List.mem_cons_self c b)
  rw [(h c this).2] at hc
  cases hc

/-- A complete string literal (opening quote, well-scanned body ending at the
closing quote) is well-scanned as a chunk. -/
theorem GoodOut.ofStr {t : List Char} (h : GoodIn t) : GoodOut ('"' :: t) := by
  refine ⟨?_, ?_⟩
  · show scanFold (scanStep .out '"') t = .out
    simpa [scanStep] using h.1
  · intro a c b hab hc
    cases a with
    | nil =>
      have : c = '"' := by simpa using (congrArg (fun l => l.headD ' ') hab).symm
      subst this
      simp [badC] at hc
    | cons x a' =>
      have hx : x = '"' := by simpa using (congrArg (fun l => l.headD ' ') hab).symm
      subst hx
      have ht : t = a' ++ c :: b := by simpa using hab
      show scanFold (scanStep .out '"') a' ≠ SMode.out
      simpa [scanStep] using h.2 a' c b ht

/-- The closing quote alone is a well-scanned string body. -/
theorem GoodIn.quote : GoodIn ['"'] := by
  refine ⟨by simp [scanFold, scanStep], ?_⟩
  intro a c b hab
  cases a with
  | nil => simp [scanFold]
  | cons x a' =>
    exfalso
    simp at hab

/-- Prepending an ordinary character (no quote, no backslash) to a
well-scanned string body. -/
theorem GoodIn.cons {t : List Char} {c : Char} (hq : c ≠ '"') (hb : c ≠ '\\')
    (h : GoodIn t) : GoodIn (c :: t) := by
  refine ⟨?_, ?_⟩
  · show scanFold (scanStep .inStr c) t = .out
    simpa [scanStep, hq, hb] using h.1
  · intro a c' b hab
    cases a with
    | nil => simp [scanFold]
    | cons x a' =>
      simp only [List.cons_append] at hab
      injection hab with h1 h2
      subst h1
      show scanFold (scanStep .inStr c) a' ≠ SMode.out
      simpa [scanStep, hq, hb] using h.2 a' c' b h2

/-- Prepending a backslash escape pair to a well-scanned string body
(the escaped character may be anything: the scanner consumes it in `esc`
mode). -/
theorem GoodIn.escPair {t : List Char} (e : Char) (h : GoodIn t) :
    GoodIn ('\\' :: e :: t) := by
  refine ⟨?_, ?_⟩
  · show scanFold (scanStep (scanStep .inStr '\\') e) t = .out
    simpa [scanStep] using h.1
  · intro a c' b hab
    cases a with
    | nil => simp [scanFold]
    | cons x a' =>
      simp only [List.cons_append] at hab
      injection hab with h1 h2
      subst h1
      cases a' with
      | nil => simp [scanFold, scanStep]
      | cons y a'' =>
        simp only [List.cons_append] at h2
        injection h2 with h3 h4
        subst h3
        show scanFold (scanStep (scanStep .inStr '\\') e) a'' ≠ SMode.out
        simpa [scanStep] using h.2 a'' c' b h4

/-- Hexadecimal digits are neither quotes nor backslashes. -/
theorem hexVal_safe (c : Char) (n : Nat) (h : hexVal c = some n) :
    c ≠ '"' ∧ c ≠ '\\' := by
  constructor <;> intro he <;> subst he <;> simp [hexVal] at h

/-- A successful string-body parse consumes a well-scanned string body:
it ends at the closing quote and never leaves string mode before it. -/
theorem parseStrBody_goodIn (fuel : Nat) :
    ∀ s cs rest, parseStrBody fuel s = some (cs, rest) → ∃ t, s = t ++ rest ∧ GoodIn t := by
  induction fuel with
  | zero => intro s cs rest h; simp [parseStrBody] at h
  | succ fuel ih =>
    intro s cs rest h
    cases s with
    | nil => simp [parseStrBody] at h
    | cons c r =>
      by_cases hq : c = '"'
      · subst hq
        simp [parseStrBody] at h
        exact ⟨['"'], by simp [h.2], GoodIn.quote⟩
      · by_cases hbsl : c = '\\'
        · subst hbsl
          cases r with
          | nil => simp [parseStrBody] at h
          | cons e rest2 =>
            by_cases hu : e = 'u'
            · subst hu
              rcases rest2 with _ | ⟨k1, _ | ⟨k2, _ | ⟨k3, _ | ⟨k4, rest3⟩⟩⟩⟩ <;>
                simp [parseStrBody] at h
              cases hx1 : hexVal k1 with
              | none => simp [hx1] at h
              | some n1 =>
                cases hx2 : hexVal k2 with
                | none => simp [hx1, hx2] at h
                | some n2 =>
                  cases hx3 : hexVal k3 with
                  | none => simp [hx1, hx2, hx3] at h
                  | some n3 =>
                    cases hx4 : hexVal k4 with
                    | none => simp [hx1, hx2, hx3, hx4] at h
                    | some n4 =>
                      rw [hx1, hx2, hx3, hx4] at h
                      cases hp : parseStrBody fuel rest3 with
                      | none => rw [hp] at h; simp at h
                      | some p =>
                        rw [hp] at h
                        simp at h
                        rcases ih rest3 p.1 p.2 (by rw [hp]) with ⟨t', ht', hg⟩
                        refine ⟨'\\' :: 'u' :: k1 :: k2 :: k3 :: k4 :: t', ?_, ?_⟩
                        · simp [ht', h.2]
                        · exact GoodIn.escPair 'u'
                            (GoodIn.cons (hexVal_safe k1 n1 hx1).1 (hexVal_safe k1 n1 hx1).2
                              (GoodIn.cons (hexVal_safe k2 n2 hx2).1 (hexVal_safe k2 n2 hx2).2
                                (GoodIn.cons (hexVal_safe k3 n3 hx3).1 (hexVal_safe k3 n3 hx3).2
                                  (GoodIn.cons (hexVal_safe k4 n4 hx4).1 (hexVal_safe k4 n4 hx4).2
                                    hg))))
            · cases hec : escChar e with
              | none => simp [parseStrBody, hu, hec] at h
              | some d =>
                have h' : (parseStrBody fuel rest2).map
                    (fun p => (d :: p.1, p.2)) = some (cs, rest) := by
                  simpa [parseStrBody, hu, hec] using h
                cases hp : parseStrBody fuel rest2 with
                | none => rw [hp] at h'; simp at h'
                | some p =>
                  rw [hp] at h'
                  simp at h'
                  rcases ih rest2 p.1 p.2 (by rw [hp]) with ⟨t', ht', hg⟩
                  exact ⟨'\\' :: e :: t', by simp [ht', h'.2], GoodIn.escPair e hg⟩
        · by_cases hctl : c.toNat < 32
          · simp [parseStrBody, hq, hbsl, hctl] at h
          · have h' : (parseStrBody fuel r).map (fun p => (c :: p.1, p.2))
                = some (cs, rest) := by
              simpa [parseStrBody, hq, hbsl, hctl] using h
            cases hp : parseStrBody fuel r with
            | none => rw [hp] at h'; simp at h'
            | some p =>
              rw [hp] at h'
              simp at h'
              rcases ih r p.1 p.2 (by rw [hp]) with ⟨t', ht', hg⟩
              exact ⟨c :: t', by simp [ht', h'.2], GoodIn.cons hq hbsl hg⟩

/-- Number-lexeme characters are harmless for the exclusivity argument. -/
theorem numChar_safe (c : Char) (h : numChar c = true) : c ≠ '"' ∧ badC c = false := by
  refine ⟨fun he => by subst he; revert h; decide, ?_⟩
  by_contra hb
  have : c = '=' ∨ c = 'i' := by
    simpa [badC] using Bool.not_eq_false (badC c) |>.mp hb
  rcases this with he | he <;> subst he <;> revert h <;> decide

/-- JSON whitespace characters are harmless as well. -/
theorem jsonWs_safe (c : Char) (h : isJsonWs c = true) : c ≠ '"' ∧ badC c = false := by
  have h4 : ((c = ' ' ∨ c = '\t') ∨ c = '\n') ∨ c = '\r' := by simpa [isJsonWs] using h
  rcases h4 with ((he | he) | he) | he <;> subst he <;> decide

/-- Splitting off the whitespace consumed by `skipWs`. -/
theorem skipWs_decomp (l : List Char) : ∃ w, l = w ++ skipWs l ∧ GoodOut w := by
  refine ⟨l.takeWhile isJsonWs, (List.takeWhile_append_dropWhile isJsonWs l).symm, ?_⟩
  exact GoodOut.ofAll (fun c hc => jsonWs_safe c (List.mem_takeWhile_imp hc))

/-- A fully-whitespace list is well-scanned. -/
theorem allWs_goodOut (l : List Char) (h : skipWs l = []) : GoodOut l :=
  GoodOut.ofAll (fun c hc => jsonWs_safe c (List.dropWhile_eq_nil_iff.mp h c hc))

/-- Digit runs are made of number characters. -/
theorem takeWhile_digits_numChar (l : List Char) :
    ∀ c ∈ l.takeWhile isDigitC, numChar c = true := by
  intro c hc
  simp [numChar, List.mem_takeWhile_imp hc]

/-- The fraction part consumes exactly its returned lexeme chunk, made of
number characters. -/
theorem parseFracPart_spec (s fr rest : List Char)
    (h : parseFracPart s = some (fr, rest)) :
    s = fr ++ rest ∧ ∀ c ∈ fr, numChar c = true := by
  unfold parseFracPart at h
  split at h
  · rename_i r
    split at h
    · cases h
    · rename_i hds
      injection h with h'
      injection h' with h1 h2
      subst h1 h2
      refine ⟨by simp [List.takeWhile_append_dropWhile], ?_⟩
      intro x hx
      rcases List.mem_cons.mp hx with hx | hx
      · subst hx; decide
      · exact takeWhile_digits_numChar _ x hx
  · injection h with h'
    injection h' with h1 h2
    subst h1 h2
    simp

/-- The exponent part consumes exactly its returned lexeme chunk, made of
number characters. -/
theorem parseExp_spec (s ex rest : List Char)
    (h : parseExp s = some (ex, rest)) :
    s = ex ++ rest ∧ ∀ c ∈ ex, numChar c = true := by
  unfold parseExp at h
  split at h
  · rename_i e r
    split at h
    · rename_i he
      have hnum : numChar e = true := by
        rcases he with he' | he' <;> subst he' <;> decide
      split at h
      · rename_i r2
        split at h
        · cases h
        · injection h with h'
          injection h' with h1 h2
          subst h1 h2
          refine ⟨by simp [List.takeWhile_append_dropWhile], ?_⟩
          intro x hx
          rcases List.mem_cons.mp hx with hx | hx
          · subst hx; exact hnum
          · rcases List.mem_cons.mp hx with hx | hx
            · subst hx; decide
            · exact takeWhile_digits_numChar _ x hx
      · rename_i r2
        split at h
        · cases h
        · injection h with h'
          injection h' with h1 h2
          subst h1 h2
          refine ⟨by simp [List.takeWhile_append_dropWhile], ?_⟩
          intro x hx
          rcases List.mem_cons.mp hx with hx | hx
          · subst hx; exact hnum
          · rcases List.mem_cons.mp hx with hx | hx
            · subst hx; decide
            · exact takeWhile_digits_numChar _ x hx
      · split at h
        · cases h
        · injection h with h'
          injection h' with h1 h2
          subst h1 h2
          refine ⟨by simp [List.takeWhile_append_dropWhile], ?_⟩
          intro x hx
          rcases List.mem_cons.mp hx with hx | hx
          · subst hx; exact hnum
          · exact takeWhile_digits_numChar _ x hx
    · injection h with h'
      injection h' with h1 h2
      subst h1 h2
      simp
  · injection h with h'
    injection h' with h1 h2
    subst h1 h2
    simp

/-- The number tail consumes exactly the lexeme minus its prefix. -/
theorem parseNumTail_spec (pre s lex rest : List Char)
    (h : parseNumTail pre s = some (lex, rest)) :
    ∃ q, lex = pre ++ q ∧ s = q ++ rest ∧ ∀ c ∈ q, numChar c = true := by
  unfold parseNumTail at h
  split at h
  · cases h
  · rename_i fr s1 hf
    split at h
    · cases h
    · rename_i ex s2 he
      injection h with h'
      injection h' with h1 h2
      rcases parseFracPart_spec s fr s1 hf with ⟨hs1, hn1⟩
      rcases parseExp_spec s1 ex s2 he with ⟨hs2, hn2⟩
      refine ⟨fr ++ ex, by simp [h1.symm], ?_, ?_⟩
      · rw [hs1, hs2, h2, List.append_assoc]
      · intro c hc
        rcases List.mem_append.mp hc with hc | hc
        · exact hn1 c hc
        · exact hn2 c hc

/-- A parsed number consumes exactly its lexeme, made of number
characters. -/
theorem parseNum_spec (s lex rest : List Char)
    (h : parseNum s = some (lex, rest)) :
    s = lex ++ rest ∧ ∀ c ∈ lex, numChar c = true := by
  unfold parseNum at h
  split at h
  · rename_i s1
    split at h
    · cases h
    · rename_i c r
      split at h
      · rename_i h0
        subst h0
        rcases parseNumTail_spec ['-', '0'] r lex rest h with ⟨q, hq1, hq2, hq3⟩
        subst hq1
        refine ⟨by simp [hq2], ?_⟩
        intro x hx
        simp only [List.cons_append, List.mem_cons] at hx
        rcases hx with hx | hx | hx
        · subst hx; decide
        · subst hx; decide
        · exact hq3 x (by simpa using hx)
      · split at h
        · rename_i hdig
          rcases parseNumTail_spec _ _ lex rest h with ⟨q, hq1, hq2, hq3⟩
          subst hq1
          rename_i hdig
          constructor
          · have hsplit : c :: r = c :: (r.takeWhile isDigitC ++ r.dropWhile isDigitC) := by
              rw [List.takeWhile_append_dropWhile]
            rw [hsplit, hq2]
            simp [List.append_assoc]
          · intro x hx
            simp only [List.cons_append, List.mem_cons, List.mem_append] at hx
            rcases hx with hx | hx | hx | hx
            · subst hx; decide
            · subst hx; simp [numChar, hdig]
            · exact takeWhile_digits_numChar r x hx
            · exact hq3 x hx
        · cases h
  · rename_i s0 hne
    split at h
    · cases h
    · rename_i c r
      split at h
      · rename_i h0
        subst h0
        rcases parseNumTail_spec ['0'] r lex rest h with ⟨q, hq1, hq2, hq3⟩
        subst hq1
        refine ⟨by simp [hq2], ?_⟩
        intro x hx
        simp only [List.cons_append, List.mem_cons] at hx
        rcases hx with hx | hx
        · subst hx; decide
        · exact hq3 x (by simpa using hx)
      · split at h
        · rename_i hdig
          rcases parseNumTail_spec _ _ lex rest h with ⟨q, hq1, hq2, hq3⟩
          subst hq1
          rename_i hdig
          constructor
          · have hsplit : c :: r = c :: (r.takeWhile isDigitC ++ r.dropWhile isDigitC) := by
              rw [List.takeWhile_append_dropWhile]
            rw [hsplit, hq2]
            simp [List.append_assoc]
          · intro x hx
            simp only [List.cons_append, List.mem_cons, List.mem_append] at hx
            rcases hx with hx | hx | hx
            · subst hx; simp [numChar, hdig]
            · exact takeWhile_digits_numChar r x hx
            · exact hq3 x hx
        · cases h

/-- Singleton structural characters are well-scanned chunks. -/
theorem goodOut_structural :
    GoodOut ['['] ∧ GoodOut [']'] ∧ GoodOut ['\x7b'] ∧ GoodOut ['\x7d'] ∧
    GoodOut [','] ∧ GoodOut [':'] :=
  ⟨GoodOut.ofAll (by decide), GoodOut.ofAll (by decide), GoodOut.ofAll (by decide),
   GoodOut.ofAll (by decide), GoodOut.ofAll (by decide), GoodOut.ofAll (by decide)⟩

/-- Every chunk consumed by a successful parse of a JSON value (or item
list, or member list) is well-scanned: it starts and ends outside string
literals, and carries its `=` and `i` characters only inside string
literals. -/
theorem parser_goodOut (fuel : Nat) :
    (∀ s v rest, parseVal fuel s = some (v, rest) → ∃ t, s = t ++ rest ∧ GoodOut t) ∧
    (∀ s vs rest, parseItems fuel s = some (vs, rest) → ∃ t, s = t ++ rest ∧ GoodOut t) ∧
    (∀ s ms rest, parseMembers fuel s = some (ms, rest) → ∃ t, s = t ++ rest ∧ GoodOut t) := by
  induction fuel with
  | zero =>
    refine ⟨?_, ?_, ?_⟩ <;> intro s v rest h <;>
      simp [parseVal, parseItems, parseMembers] at h
  | succ fuel ih =>
    obtain ⟨ihV, ihI, ihM⟩ := ih
    refine ⟨?_, ?_, ?_⟩
    · -- parseVal
      intro s v rest h
      cases s with
      | nil => simp [parseVal] at h
      | cons c r =>
        rw [parseVal.eq_def] at h
        dsimp only at h
        by_cases hq : c = '"'
        · rw [if_pos hq] at h
          subst hq
          cases hp : parseStrBody (fuel + 1) r with
          | none => rw [hp] at h; cases h
          | some p =>
            rw [hp, Option.map_some'] at h
            injection h with h'
            injection h' with h1 h2
            rcases parseStrBody_goodIn (fuel + 1) r p.1 p.2 (by rw [hp]) with ⟨t', ht', hgi⟩
            exact ⟨'"' :: t', by rw [ht', h2]; simp, GoodOut.ofStr hgi⟩
        · rw [if_neg hq] at h
          by_cases htr : c = 't'
          · rw [if_pos htr] at h
            subst htr
            split at h
            · rename_i r2
              injection h with h'
              injection h' with h1 h2
              subst h2
              exact ⟨"true".data, by simp, GoodOut.ofAll (by decide)⟩
            · cases h
          · rw [if_neg htr] at h
            by_cases hfa : c = 'f'
            · rw [if_pos hfa] at h
              subst hfa
              split at h
              · rename_i r2
                injection h with h'
                injection h' with h1 h2
                subst h2
                exact ⟨"false".data, by simp, GoodOut.ofAll (by decide)⟩
              · cases h
            · rw [if_neg hfa] at h
              by_cases hnu : c = 'n'
              · rw [if_pos hnu] at h
                subst hnu
                split at h
                · rename_i r2
                  injection h with h'
                  injection h' with h1 h2
                  subst h2
                  exact ⟨"null".data, by simp, GoodOut.ofAll (by decide)⟩
                · cases h
              · rw [if_neg hnu] at h
                by_cases hbr : c = '['
                · rw [if_pos hbr] at h
                  subst hbr
                  rcases skipWs_decomp r with ⟨w, hw, hgw⟩
                  split at h
                  · rename_i r2 hsw
                    injection h with h'
                    injection h' with h1 h2
                    subst h2
                    refine ⟨'[' :: w ++ [']'], ?_, ?_⟩
                    · rw [hw, hsw]
                      simp
                    · exact (goodOut_structural.1.append hgw).append
                        goodOut_structural.2.1
                  · cases hp : parseItems fuel (skipWs r) with
                    | none => rw [hp] at h; cases h
                    | some p =>
                      rw [hp, Option.map_some'] at h
                      injection h with h'
                      injection h' with h1 h2
                      rcases ihI (skipWs r) p.1 p.2 (by rw [hp]) with ⟨t', ht', hgt⟩
                      refine ⟨'[' :: w ++ t', ?_, ?_⟩
                      · rw [hw, ht', h2]
                        simp
                      · exact (goodOut_structural.1.append hgw).append hgt
                · rw [if_neg hbr] at h
                  by_cases hob : c = '\x7b'
                  · rw [if_pos hob] at h
                    subst hob
                    rcases skipWs_decomp r with ⟨w, hw, hgw⟩
                    split at h
                    · rename_i r2 hsw
                      injection h with h'
                      injection h' with h1 h2
                      subst h2
                      refine ⟨'\x7b' :: w ++ ['\x7d'], ?_, ?_⟩
                      · rw [hw, hsw]
                        simp
                      · exact (goodOut_structural.2.2.1.append hgw).append
                          goodOut_structural.2.2.2.1
                    · cases hp : parseMembers fuel (skipWs r) with
                      | none => rw [hp] at h; cases h
                      | some p =>
                        rw [hp, Option.map_some'] at h
                        injection h with h'
                        injection h' with h1 h2
                        rcases ihM (skipWs r) p.1 p.2 (by rw [hp]) with ⟨t', ht', hgt⟩
                        refine ⟨'\x7b' :: w ++ t', ?_, ?_⟩
                        · rw [hw, ht', h2]
                          simp
                        · exact (goodOut_structural.2.2.1.append hgw).append hgt
                  · rw [if_neg hob] at h
                    cases hp : parseNum (c :: r) with
                    | none => rw [hp] at h; cases h
                    | some p =>
                      rw [hp, Option.map_some'] at h
                      injection h with h'
                      injection h' with h1 h2
                      rcases parseNum_spec (c :: r) p.1 p.2 (by rw [hp]) with ⟨hs, hn⟩
                      refine ⟨p.1, by rw [hs, h2], ?_⟩
                      exact GoodOut.ofAll (fun x hx => numChar_safe x (hn x hx))
    · -- parseItems
      intro s vs rest h
      rw [parseItems.eq_def] at h
      dsimp only at h
      cases hv : parseVal fuel s with
      | none => rw [hv] at h; cases h
      | some p1 =>
        obtain ⟨v1, r1⟩ := p1
        rw [hv] at h
        dsimp only at h
        rcases ihV s v1 r1 hv with ⟨t1, ht1, hg1⟩
        rcases skipWs_decomp r1 with ⟨w1, hw1, hgw1⟩
        split at h
        · rename_i r2 hsw
          cases hp : parseItems fuel (skipWs r2) with
          | none => rw [hp] at h; cases h
          | some p2 =>
            obtain ⟨vs2, rest2⟩ := p2
            rw [hp, Option.map_some'] at h
            injection h with h'
            injection h' with h1 h2
            dsimp only at h2
            rcases ihI (skipWs r2) vs2 rest2 hp with ⟨t2, ht2, hg2⟩
            rcases skipWs_decomp r2 with ⟨w2, hw2, hgw2⟩
            refine ⟨t1 ++ w1 ++ [','] ++ w2 ++ t2, ?_, ?_⟩
            · rw [ht1, hw1, hsw, hw2, ht2, h2]
              simp
            · exact (((hg1.append hgw1).append goodOut_structural.2.2.2.2.1).append
                hgw2).append hg2
        · rename_i r2 hsw
          injection h with h'
          injection h' with h1 h2
          subst h2
          refine ⟨t1 ++ w1 ++ [']'], ?_, ?_⟩
          · rw [ht1, hw1, hsw]
            simp
          · exact (hg1.append hgw1).append goodOut_structural.2.1
        · cases h
    · -- parseMembers
      intro s ms rest h
      rw [parseMembers.eq_def] at h
      dsimp only at h
      split at h
      · rename_i r
        cases hk : parseStrBody (fuel + 1) r with
        | none => rw [hk] at h; cases h
        | some pk =>
          obtain ⟨key, r1⟩ := pk
          rw [hk] at h
          dsimp only at h
          rcases parseStrBody_goodIn (fuel + 1) r key r1 hk with ⟨tk, htk, hgk⟩
          rcases skipWs_decomp r1 with ⟨w1, hw1, hgw1⟩
          split at h
          · rename_i r2 hsw
            cases hv : parseVal fuel (skipWs r2) with
            | none => rw [hv] at h; cases h
            | some pv =>
              obtain ⟨v1, r3⟩ := pv
              rw [hv] at h
              dsimp only at h
              rcases ihV (skipWs r2) v1 r3 hv with ⟨tv, htv, hgv⟩
              rcases skipWs_decomp r2 with ⟨w2, hw2, hgw2⟩
              rcases skipWs_decomp r3 with ⟨w3, hw3, hgw3⟩
              split at h
              · rename_i r4 hsw3
                cases hp : parseMembers fuel (skipWs r4) with
                | none => rw [hp] at h; cases h
                | some pm =>
                  obtain ⟨ms2, rest2⟩ := pm
                  rw [hp, Option.map_some'] at h
                  injection h with h'
                  injection h' with h1 h2
                  dsimp only at h2
                  rcases ihM (skipWs r4) ms2 rest2 hp with ⟨tm, htm, hgm⟩
                  rcases skipWs_decomp r4 with ⟨w4, hw4, hgw4⟩
                  refine ⟨'"' :: tk ++ w1 ++ [':'] ++ w2 ++ tv ++ w3 ++ [','] ++ w4 ++ tm,
                    ?_, ?_⟩
                  · rw [htk, hw1, hsw, hw2, htv, hw3, hsw3, hw4, htm, h2]
                    simp
                  · exact ((((((((GoodOut.ofStr hgk).append hgw1).append
                      goodOut_structural.2.2.2.2.2).append hgw2).append hgv).append
                      hgw3).append goodOut_structural.2.2.2.2.1).append hgw4).append hgm
              · rename_i r4 hsw3
                injection h with h'
                injection h' with h1 h2
                subst h2
                refine ⟨'"' :: tk ++ w1 ++ [':'] ++ w2 ++ tv ++ w3 ++ ['\x7d'], ?_, ?_⟩
                · rw [htk, hw1, hsw, hw2, htv, hw3, hsw3]
                  simp
                · exact ((((((GoodOut.ofStr hgk).append hgw1).append
                    goodOut_structural.2.2.2.2.2).append hgw2).append hgv).append
                    hgw3).append goodOut_structural.2.2.2.1
              · cases h
          · cases h
      · cases h

/-- In any body accepted by `jsonParse`, every `=` and every `i` sits inside
a JSON string literal: the scanner is off `out` mode at its position. -/
theorem jsonParse_scanInvariant (body : String) (h : (jsonParse body).isSome = true) :
    ∀ a c b, body.data = a ++ c :: b → badC c = true → scanFold .out a ≠ SMode.out := by
  unfold jsonParse at h
  cases hp : parseVal (2 * body.data.length + 4) (skipWs body.data) with
  | none => rw [hp] at h; simp at h
  | some p =>
    obtain ⟨v, rest⟩ := p
    rw [hp] at h
    dsimp only at h
    by_cases hrest : skipWs rest = []
    · rcases (parser_goodOut _).1 (skipWs body.data) v rest hp with ⟨t, ht, hg⟩
      rcases skipWs_decomp body.data with ⟨w, hw, hgw⟩
      have hbd : body.data = w ++ (t ++ rest) := by
        conv_lhs => rw [hw, ht]
      have hfull : GoodOut body.data := by
        rw [hbd]
        exact hgw.append (hg.append (allWs_goodOut rest hrest))
      exact hfull.2
    · rw [if_neg hrest] at h
      simp at h

/-- A raw occurrence of `="` followed, quote-free, by an `i` is impossible in
a body accepted by `jsonParse`: after the `="` the scanner is outside any
string literal and stays there up to the `i`, where the invariant demands it
be inside one. -/
theorem errSpan_json_exclusive (body : String) (pre mid rest : List Char)
    (hdec : body.data = pre ++ '=' :: '"' :: (mid ++ 'i' :: rest))
    (hq : '"' ∉ mid) :
    (jsonParse body).isSome = false := by
  by_contra hcon
  have hsome : (jsonParse body).isSome = true := by
    cases hx : (jsonParse body).isSome
    · exact absurd hx hcon
    · rfl
  have inv := jsonParse_scanInvariant body hsome
  have h1 : scanFold .out pre ≠ SMode.out :=
    inv pre '=' ('"' :: (mid ++ 'i' :: rest)) (by rw [hdec]) (by decide)
  have h2 : scanFold .out (pre ++ '=' :: '"' :: mid) ≠ SMode.out := by
    refine inv (pre ++ '=' :: '"' :: mid) 'i' rest ?_ (by decide)
    rw [hdec]
    simp
  apply h2
  rw [scanFold_append]
  cases hm : scanFold .out pre with
  | out => exact absurd hm h1
  | inStr =>
    show scanFold (scanStep (scanStep SMode.inStr '=') '"') mid = SMode.out
    simpa [scanStep] using scanFold_out_no_quote mid hq
  | esc =>
    show scanFold (scanStep (scanStep SMode.esc '=') '"') mid = SMode.out
    simpa [scanStep] using scanFold_out_no_quote mid hq

/-! # Claim theorems -/

/-- Claim C3. When no API response was captured (`appointmentApiData` is
`null`) and none of the three DOM fallback indicators fires — the
`Please select date and time` heading is not visible, the validation-error
span is not visible, and the `ErrorNoAvaiableDates` hidden input is absent —
`hasAppointmentsAvailable` returns `true`, the documented optimistic
default. -/
theorem c3_optimistic_default (ps : DomState)
    (hc : ps.closed = false) (hh : ps.headingVisible = false)
    (he : ps.errorSpanVisible = false) (hi : ps.errorInputCount = 0) :
    hasAppointmentsAvailable ps none = true := by
  simp [hasAppointmentsAvailable, domFallback, hc, hh, he, hi]

/-- Witness for C3 at a concrete inconclusive DOM state. -/
theorem c3_optimistic_default_witness :
    hasAppointmentsAvailable ⟨false, false, false, 0⟩ none = true :=
  c3_optimistic_default ⟨false, false, false, 0⟩ rfl rfl rfl rfl

/-- Claim C8. For every list of location results, the summary produced by
`formatResults` satisfies `total = length of input = available +
unavailable`, every result being counted in exactly one of the two tallies;
on the empty list this yields `{total := 0, available := 0,
unavailable := 0}` with empty name lists. -/
theorem c8_summary_partition (results : List LocationResult) :
    (formatResults results).total = results.length ∧
    (formatResults results).available + (formatResults results).unavailable
      = results.length ∧
    formatResults [] = ⟨0, 0, 0, [], []⟩ := by
  refine ⟨rfl, ?_, rfl⟩
  simpa [formatResults] using
    length_filter_partition (fun r : LocationResult => r.isAvailable) results

/-- Claim C9. the method `clickActiveUnit` clears both `lastApiResponse` and
`appointmentApiData` before the click can capture anything: its resulting
state never depends on the state left by a previous location, a visit that
captures nothing leaves both slots `null`, and a visit that captures a
response stores exactly that response and its freshly parsed signal. -/
theorem c9_click_clears_stale_state (s₁ s₂ : ApiSlots) (env : ClickEnv) :
    clickActiveUnit s₁ env = clickActiveUnit s₂ env ∧
    (env.captured = none → (clickActiveUnit s₁ env).1 = ⟨none, none⟩) ∧
    (∀ r, env.captured = some r →
      (clickActiveUnit s₁ env).1 = ⟨some r, some (parseAppointmentData r.body)⟩) := by
  refine ⟨rfl, ?_, ?_⟩
  · intro h; simp [clickActiveUnit, h]
  · intro r h; simp [clickActiveUnit, h]

/-- Witness for C9: a stale captured signal from a previous location is
wiped by a visit that captures nothing. -/
theorem c9_click_clears_stale_state_witness :
    (clickActiveUnit
      ⟨some ⟨"u", 200, "stale", [], "t"⟩, some (parseAppointmentData "stale")⟩
      ⟨none, false, false, false⟩).1 = ⟨none, none⟩ :=
  (c9_click_clears_stale_state
    ⟨some ⟨"u", 200, "stale", [], "t"⟩, some (parseAppointmentData "stale")⟩
    ⟨none, none⟩ ⟨none, false, false, false⟩).2.1 rfl

/-- Claim C2, counterexample. The claim says `hasAppointmentsAvailable`,
invoked on a closed page, raises an error rather than returning
`isAvailable = false`.  It does not: on a closed page (all other indicators
immaterial, here a state with no captured data) the method logs a warning and
returns `false` — exactly the silent false "no appointments" the claim rules
out.  The method's embedding is `Bool`-valued because every awaitable in its
body carries a `.catch` handler in the source, so no error can propagate. -/
theorem c2_closed_page_counterexample :
    hasAppointmentsAvailable ⟨true, false, false, 0⟩ none = false := rfl

/-- Claim C2, amended. the method `clickActiveUnit` does fail with a distinguishable error
when the page is found closed after the click (and likewise when it closes
during the loader wait), but `hasAppointmentsAvailable` on a closed page
returns `false` instead of raising: only the `clickActiveUnit` half of the
claim holds, and a closure first observed inside `hasAppointmentsAvailable`
yields a silent `isAvailable = false`. -/
theorem c2_closed_page_amended (s : ApiSlots) (env : ClickEnv)
    (h : env.closedAfterClick = true) :
    (clickActiveUnit s env).2 = .error "Page was closed unexpectedly after clicking unit" ∧
    (∀ (ps : DomState) (d : Option ApptData),
      ps.closed = true → hasAppointmentsAvailable ps d = false) := by
  constructor
  · simp [clickActiveUnit, h]
  · intro ps d hc
    simp [hasAppointmentsAvailable, hc]

/-- Witness for the amended C2 at a concrete environment whose page closes
right after the click. -/
theorem c2_closed_page_amended_witness :
    (clickActiveUnit ⟨none, none⟩ ⟨none, true, false, false⟩).2
      = .error "Page was closed unexpectedly after clicking unit" ∧
    hasAppointmentsAvailable ⟨true, true, false, 0⟩ none = false := by
  have h := c2_closed_page_amended ⟨none, none⟩ ⟨none, true, false, false⟩ rfl
  exact ⟨h.1, h.2 ⟨true, true, false, 0⟩ none rfl⟩

/-- Claim C10. For every list of time slots in which each slot's `datetime` is
either empty or has a second space-separated token (so the filter callback
does not throw), `getAfternoonTimeSlots` returns exactly the slots whose
`datetime` is non-empty, contains `PM`, and whose hour — the integer before
the `:` of the second space-separated token — is strictly less than `5`;
consequently no slot whose hour reads `12` (the noon hour) survives, and
symmetrically `getMorningTimeSlots` keeps exactly the `AM` slots with hour at
least `8`. -/
theorem c10_slot_filters (slots : List TimeSlot)
    (h : ∀ s ∈ slots, s.datetime = "" ∨ (slotHour s.datetime).isSome) :
    getAfternoonTimeSlots slots = .ok (slots.filter claimAfternoon) ∧
    getMorningTimeSlots slots = .ok (slots.filter claimMorning) ∧
    (∀ s ∈ slots, slotHour s.datetime = some (some 12) →
      ∀ l, getAfternoonTimeSlots slots = .ok l → s ∉ l) := by
  have haft : getAfternoonTimeSlots slots = .ok (slots.filter claimAfternoon) :=
    filterE_eq_filter _ _ _ (fun s hs => afternoonKeep_eq_claim s (h s hs))
  refine ⟨haft, filterE_eq_filter _ _ _ (fun s hs => morningKeep_eq_claim s (h s hs)), ?_⟩
  intro s _ h12 l hl hmem
  rw [haft] at hl
  cases hl
  have := (List.mem_filter.mp hmem).2
  simp [claimAfternoon, h12] at this

/-- Witness for C10: a concrete slot list with an early-afternoon slot, a
noon slot, a morning slot, an empty-datetime slot, and a slot whose hour
token `0x` reads as `NaN` under `parseInt` — only the early-afternoon and
the morning slot survive their respective filters. -/
theorem c10_slot_filters_witness :
    getAfternoonTimeSlots
        [⟨"2026-03-05 1:15 PM", "1:15 PM"⟩, ⟨"2026-03-05 12:30 PM", "12:30 PM"⟩,
         ⟨"2026-03-05 8:00 AM", "8:00 AM"⟩, ⟨"", ""⟩,
         ⟨"2026-03-05 0x:30 PM", "0x:30 PM"⟩]
      = .ok [⟨"2026-03-05 1:15 PM", "1:15 PM"⟩] ∧
    getMorningTimeSlots
        [⟨"2026-03-05 1:15 PM", "1:15 PM"⟩, ⟨"2026-03-05 12:30 PM", "12:30 PM"⟩,
         ⟨"2026-03-05 8:00 AM", "8:00 AM"⟩, ⟨"", ""⟩,
         ⟨"2026-03-05 0x:30 PM", "0x:30 PM"⟩]
      = .ok [⟨"2026-03-05 8:00 AM", "8:00 AM"⟩] := by
  have h := c10_slot_filters
    [⟨"2026-03-05 1:15 PM", "1:15 PM"⟩, ⟨"2026-03-05 12:30 PM", "12:30 PM"⟩,
     ⟨"2026-03-05 8:00 AM", "8:00 AM"⟩, ⟨"", ""⟩,
     ⟨"2026-03-05 0x:30 PM", "0x:30 PM"⟩]
    (by decide)
  exact ⟨by rw [h.1]; exact congrArg Except.ok (by decide),
         by rw [h.2.1]; exact congrArg Except.ok (by decide)⟩

/-- Claim C6. For every response body containing neither the definitive
positive marker nor the negative error element, and not decodable as a
structured payload, `parseAppointmentData` returns the inconclusive triple:
`hasAppointments = false`, `errorMessage = null`, `availableDates = []`. -/
theorem c6_inconclusive_triple (body : String)
    (hjson : ¬ jsonPathTaken body)
    (hm : strIncl body calendarModelMarker = false)
    (he : hasVisibleError body = false) :
    parseAppointmentData body = ⟨.bool false, .arr [], none⟩ := by
  have hfrag : parseFragments body = ⟨.bool false, .arr [], none⟩ := by
    simp [parseFragments, hm, he]
  unfold parseAppointmentData
  by_cases hg : (strStarts (jsTrim body) "\x7b" || strStarts (jsTrim body) "[") = true
  · have hp : jsonParse body = none := by
      cases hpp : jsonParse body with
      | none => rfl
      | some v => exact absurd ⟨hg, by simp [hpp]⟩ hjson
    simp [hg, hp, hfrag]
  · simp [hg, hfrag]

/-- Witness for C6 at a concrete markerless body. -/
theorem c6_inconclusive_triple_witness :
    parseAppointmentData "<div>calendar widget shell</div>" = ⟨.bool false, .arr [], none⟩ :=
  c6_inconclusive_triple "<div>calendar widget shell</div>"
    (by intro h; exact absurd h.1 (by decide)) (by decide) (by decide)

/-- Claim C7. the classifier `parseAppointmentData` is total — its embedding is a plain
function on strings, every JavaScript exception on its path being caught in
the source — and when the trimmed body starts with a brace or bracket but
fails to decode as JSON, the failure is swallowed and classification falls
through to the fragment-marker analysis. -/
theorem c7_json_failure_falls_through (body : String)
    (hg : (strStarts (jsTrim body) "\x7b" || strStarts (jsTrim body) "[") = true)
    (hp : (jsonParse body).isSome = false) :
    parseAppointmentData body = parseFragments body := by
  have hnone : jsonParse body = none := Option.not_isSome_iff_eq_none.mp (by simp [hp])
  unfold parseAppointmentData
  rw [if_pos hg, hnone]

/-- Witness for C7: a body opening a brace that is not valid JSON yet
contains the positive marker — the decode failure falls through and the
fragment analysis classifies it positively. -/
theorem c7_json_failure_falls_through_witness :
    (jsonParse "\x7bnot json OABSEngine.Models.CalendarDateModel").isSome = false ∧
    parseAppointmentData "\x7bnot json OABSEngine.Models.CalendarDateModel"
      = parseFragments "\x7bnot json OABSEngine.Models.CalendarDateModel" ∧
    (parseFragments "\x7bnot json OABSEngine.Models.CalendarDateModel").hasAppointments.isTrueJs
      = true := by
  refine ⟨by decide, ?_, by decide⟩
  exact c7_json_failure_falls_through _ (by decide) (by decide)

/-- Claim C1, counterexample. The claim quantifies over *every* response body
containing the positive marker.  A body that is itself a decodable JSON
payload mentioning the marker inside a string defeats it: the
structured-payload path runs first, `json.hasAppointments` is `undefined` on
an array, and the classifier returns `hasAppointments = false` although the
marker occurs in the body and the positive fragment check is never reached. -/
theorem c1_positive_marker_counterexample :
    strIncl "[\"OABSEngine.Models.CalendarDateModel\"]" calendarModelMarker = true ∧
    (parseAppointmentData "[\"OABSEngine.Models.CalendarDateModel\"]").hasAppointments.isTrueJs
      = false ∧
    (parseAppointmentData "[\"OABSEngine.Models.CalendarDateModel\"]").hasAppointments.isFalseJs
      = true := by
  decide

/-- Claim C1, amended. For every response body *not taken by the
structured-payload path* (its trimmed form does not open a brace/bracket, or
it fails to decode as JSON) that contains the definitive positive marker
`OABSEngine.Models.CalendarDateModel`, `parseAppointmentData` returns
`hasAppointments = true` with a null `errorMessage` — even when the negative
error phrase also appears in the body, since the positive check
short-circuits and the negative check is never evaluated. -/
theorem c1_positive_marker_amended (body : String)
    (hjson : ¬ jsonPathTaken body)
    (hm : strIncl body calendarModelMarker = true) :
    (parseAppointmentData body).hasAppointments = .bool true ∧
    (parseAppointmentData body).errorMessage = none := by
  have hfrag : parseAppointmentData body = parseFragments body := by
    unfold parseAppointmentData
    by_cases hg : (strStarts (jsTrim body) "\x7b" || strStarts (jsTrim body) "[") = true
    · have hp : jsonParse body = none := by
        cases hpp : jsonParse body with
        | none => rfl
        | some v => exact absurd ⟨hg, by simp [hpp]⟩ hjson
      simp [hg, hp]
    · simp [hg]
  rw [hfrag]
  simp [parseFragments, hm]

/-- Witness for the amended C1: a body carrying both the positive marker and
a fully-formed negative error span still classifies positively. -/
theorem c1_positive_marker_amended_witness :
    hasVisibleError ("OABSEngine.Models.CalendarDateModel <span class=\"field-validation-error\">This office does not currently have any appointments available</span>") = true ∧
    (parseAppointmentData "OABSEngine.Models.CalendarDateModel <span class=\"field-validation-error\">This office does not currently have any appointments available</span>").hasAppointments
      = .bool true := by
  refine ⟨by decide, ?_⟩
  exact (c1_positive_marker_amended _ (by decide) (by decide)).1

/-- Claim C4, counterexample. The claim says the positive path extracts
*exactly the substrings of the body matching the strict pattern*.  `matchAll`
scans left to right and consumes each match, so a pattern occurrence that
overlaps an earlier (leftmost) match is skipped: in
`… 1234-56-7890-12-34`, the substring `7890-12-34` matches the strict
`\d{4}-\d{2}-\d{2}` shape and occurs in the body, yet `availableDates`
contains only `1234-56-78`. -/
theorem c4_date_extraction_counterexample :
    strIncl "OABSEngine.Models.CalendarDateModel 1234-56-7890-12-34"
      calendarModelMarker = true ∧
    (parseAppointmentData "OABSEngine.Models.CalendarDateModel 1234-56-7890-12-34").availableDates
      = .arr [.str "1234-56-78"] ∧
    isDatePat "7890-12-34" = true ∧
    strIncl "OABSEngine.Models.CalendarDateModel 1234-56-7890-12-34" "7890-12-34" = true ∧
    "1234-56-78" ≠ "7890-12-34" :=
  ⟨by decide, rfl, by decide, by decide, by decide⟩

/-- Claim C4, amended. On the positive-marker path (structured-payload path
not taken, marker present), `availableDates` consists of the *leftmost
non-overlapping* matches of the strict `\d{4}-\d{2}-\d{2}` pattern,
de-duplicated keeping first occurrences: the resulting list is duplicate-free,
is a subsequence of the match sequence (first-seen order), and every entry
has the strict date shape and occurs as a substring of the body — so
malformed near-dates such as `2026-3-6` never appear. -/
theorem c4_date_extraction_amended (body : String)
    (hjson : ¬ jsonPathTaken body)
    (hm : strIncl body calendarModelMarker = true) :
    (parseAppointmentData body).availableDates
      = .arr ((dedupFirst (scanDates body.data)).map .str) ∧
    (dedupFirst (scanDates body.data)).Nodup ∧
    (dedupFirst (scanDates body.data)).Sublist (scanDates body.data) ∧
    ∀ d ∈ dedupFirst (scanDates body.data), isDatePat d = true ∧ strIncl body d = true := by
  have hfrag : parseAppointmentData body = parseFragments body := by
    unfold parseAppointmentData
    by_cases hg : (strStarts (jsTrim body) "\x7b" || strStarts (jsTrim body) "[") = true
    · have hp : jsonParse body = none := by
        cases hpp : jsonParse body with
        | none => rfl
        | some v => exact absurd ⟨hg, by simp [hpp]⟩ hjson
      simp [hg, hp]
    · simp [hg]
  rcases dedupFirstAux_sublist (scanDates body.data) [] with ⟨m, hm', hs⟩
  have hsub : (dedupFirst (scanDates body.data)).Sublist (scanDates body.data) := by
    rw [dedupFirst, hm']; simpa using hs
  refine ⟨?_, dedupFirstAux_nodup _ _ (by simp), hsub, ?_⟩
  · rw [hfrag]; simp [parseFragments, hm]
  · intro d hd
    exact scanDatesF_sound _ _ d (hsub.subset hd)

/-- Witness for the amended C4, at the specification's own example body:
three occurrences of `2026-03-05`, two of `2026-03-06` and a malformed
`2026-3-6` yield exactly `["2026-03-05", "2026-03-06"]`. -/
theorem c4_date_extraction_amended_witness :
    (parseAppointmentData "OABSEngine.Models.CalendarDateModel 2026-03-05 2026-03-05 2026-03-05 2026-03-06 2026-03-06 2026-3-6").availableDates
      = .arr [.str "2026-03-05", .str "2026-03-06"] ∧
    (dedupFirst (scanDates ("OABSEngine.Models.CalendarDateModel 2026-03-05 2026-03-05 2026-03-05 2026-03-06 2026-03-06 2026-3-6" : String).data)).Nodup := by
  have h := c4_date_extraction_amended
    "OABSEngine.Models.CalendarDateModel 2026-03-05 2026-03-05 2026-03-05 2026-03-06 2026-03-06 2026-3-6"
    (by decide) (by decide)
  have he : dedupFirst (scanDates ("OABSEngine.Models.CalendarDateModel 2026-03-05 2026-03-05 2026-03-05 2026-03-06 2026-03-06 2026-3-6" : String).data)
      = ["2026-03-05", "2026-03-06"] := by decide
  exact ⟨h.1.trans (by rw [he]; rfl), h.2.1⟩

/-- The structured-payload path falls through to the fragment analysis
whenever it is not taken. -/
theorem parseAppointmentData_fragments (body : String) (h : ¬ jsonPathTaken body) :
    parseAppointmentData body = parseFragments body := by
  unfold parseAppointmentData
  by_cases hg : (strStarts (jsTrim body) "\x7b" || strStarts (jsTrim body) "[") = true
  · have hp : jsonParse body = none := by
      cases hpp : jsonParse body with
      | none => rfl
      | some v => exact absurd ⟨hg, by simp [hpp]⟩ h
    simp [hg, hp]
  · simp [hg]

/-- Claim C5. Every response body that does not contain the positive marker but
does contain a `<span>` element whose class attribute includes
`field-validation-error` and whose text contains the no-appointments phrase —
presented structurally: the body decomposes around the span with no stray
`>` inside the tag, no stray `"` inside the class attribute, and no markup
inside the text — classifies as `hasAppointments = false` with the non-null
`errorMessage`.  No JSON escape hatch exists: such a body can never be
accepted by the structured-payload path, because a raw `class="` followed
quote-free by `field-validation-error` cannot occur in decodable JSON
(its `=` would have to sit outside every string literal). -/
theorem c5_negative_error_span (body : String)
    (pre a b c d e f post : List Char)
    (hdec : body.data = pre ++ "<span".data ++ a ++ "class=\"".data ++ b ++
      "field-validation-error".data ++ c ++ "\"".data ++ d ++ ">".data ++ e ++
      noApptPhrase.data ++ f ++ "</span>".data ++ post)
    (ha : '>' ∉ a) (hb : '"' ∉ b) (hc : '"' ∉ c) (hd : '>' ∉ d)
    (he : '<' ∉ e) (hf : '<' ∉ f)
    (hm : strIncl body calendarModelMarker = false) :
    parseAppointmentData body
      = ⟨.bool false, .arr [], some "No appointments available"⟩ := by
  -- the regex finds the span
  have k1 : litThen "</span>".data (fun _ => true) ("</span>".data ++ post) = true :=
    litThen_complete _ _ _ rfl
  have k2 := starThen_complete '<' _ f _ (fun x hx hx' => hf (hx' ▸ hx)) k1
  have k3 := litThen_complete noApptPhrase.data _ _ k2
  have k4 := starThen_complete '<' _ e _ (fun x hx hx' => he (hx' ▸ hx)) k3
  have k5 := litThen_complete ">".data _ _ k4
  have k6 := starThen_complete '>' _ d _ (fun x hx hx' => hd (hx' ▸ hx)) k5
  have k7 := litThen_complete "\"".data _ _ k6
  have k8 := starThen_complete '"' _ c _ (fun x hx hx' => hc (hx' ▸ hx)) k7
  have k9 := litThen_complete "field-validation-error".data _ _ k8
  have k10 := starThen_complete '"' _ b _ (fun x hx hx' => hb (hx' ▸ hx)) k9
  have k11 := litThen_complete "class=\"".data _ _ k10
  have k12 := starThen_complete '>' _ a _ (fun x hx hx' => ha (hx' ▸ hx)) k11
  have k13 := litThen_complete "<span".data
    (starThen '>' (litThen "class=\"".data
      (starThen '"' (litThen "field-validation-error".data
        (starThen '"' (litThen "\"".data
          (starThen '>' (litThen ">".data
            (starThen '<' (litThen noApptPhrase.data
              (starThen '<' (litThen "</span>".data (fun _ => true))))))))))))) _ k12
  have hdec' : body.data = pre ++ ("<span".data ++ (a ++ ("class=\"".data ++ (b ++
      ("field-validation-error".data ++ (c ++ ("\"".data ++ (d ++ (">".data ++ (e ++
      (noApptPhrase.data ++ (f ++ ("</span>".data ++ post))))))))))))) := by
    rw [hdec]
    simp [List.append_assoc]
  have hvis : hasVisibleError body = true := by
    unfold hasVisibleError
    rw [hdec']
    exact scanSpan_complete pre _ k13
  -- the body cannot be decodable JSON
  have hcl : ("class=\"" : String).data = ("class" : String).data ++ ['=', '"'] := rfl
  have hfv : ("field-validation-error" : String).data
      = 'f' :: 'i' :: ("eld-validation-error" : String).data := rfl
  have hdec2 : body.data = (pre ++ "<span".data ++ a ++ ("class" : String).data) ++
      '=' :: '"' :: ((b ++ ['f']) ++ 'i' ::
        (("eld-validation-error" : String).data ++ c ++ "\"".data ++ d ++ ">".data ++ e ++
          noApptPhrase.data ++ f ++ "</span>".data ++ post)) := by
    rw [hdec, hcl, hfv]
    simp [List.append_assoc]
  have hqmid : '"' ∉ b ++ ['f'] := by
    intro hmem
    rcases List.mem_append.mp hmem with hmem | hmem
    · exact hb hmem
    · simp at hmem
  have hjson : (jsonParse body).isSome = false :=
    errSpan_json_exclusive body _ _ _ hdec2 hqmid
  -- assemble the classification
  have hfrag : parseAppointmentData body = parseFragments body := by
    refine parseAppointmentData_fragments body ?_
    intro hpath
    rw [hpath.2] at hjson
    cases hjson
  rw [hfrag]
  simp [parseFragments, hm, hvis]

set_option maxRecDepth 8192 in
/-- Witness for C5 at a concrete error page: a realistic span with extra
attributes and surrounding text classifies negatively with the error
message set. -/
theorem c5_negative_error_span_witness :
    parseAppointmentData
        "PAGE <span id=\"x\" class=\"alert field-validation-error strong\" style=\"color:red\">Sorry. This office does not currently have any appointments available in the next 90 days.</span> TAIL"
      = ⟨.bool false, .arr [], some "No appointments available"⟩ :=
  c5_negative_error_span
    "PAGE <span id=\"x\" class=\"alert field-validation-error strong\" style=\"color:red\">Sorry. This office does not currently have any appointments available in the next 90 days.</span> TAIL"
    "PAGE ".data (" id=\"x\" ").data "alert ".data " strong".data
    (" style=\"color:red\"").data "Sorry. ".data
    " in the next 90 days.".data " TAIL".data
    (by decide) (by decide) (by decide) (by decide) (by decide)
    (by decide) (by decide) (by decide)

end DMV
